import Mathlib

/-!
Shallow embedding of the queue implementation of this repository
(src/queue.c and src/unnamed/part_000) and proofs about it.

Strings are modelled as lists of byte values (List Nat).  A C `list_ele_t`
becomes a `Node`; its `next` pointer is represented by adjacency in a
`List Node`, and the `id` field models the node's identity (its address),
which the C code distinguishes even between nodes holding equal strings.
The `queue_t` handle becomes a `Queue` record with the chain reachable from
`head`, the separately stored `tail` pointer, and the `size` field (a C
`int`: an `Int` that every mutating operation writes through `wrap32`, the
two's-complement wraparound of a 32-bit signed integer, so that `size++`
past INT_MAX overflows exactly as the compiled program does).

Functions that the C code writes with general recursion are embedded with an
explicit fuel argument so that they stay executable by kernel reduction; the
fuel chosen by each wrapper is large enough that the fuel-exhausted branch is
never reached on the calls the C code performs.
-/

namespace Lab0

/-- ASCII decimal digit test, used by the natural-order comparator. -/
def isDigit (c : Nat) : Bool := 48 ≤ c && c ≤ 57

/-- Numeric value of a run of ASCII digits. -/
def digitRunVal (l : List Nat) : Nat := l.foldl (fun n c => n * 10 + (c - 48)) 0

/-- Modelled from the spec: the natural-order comparator `strnatcmp`
(declared in natsort/strnatcmp.h; its implementation is not under src/).
Per the spec it is a case-sensitive, digit-run-aware lexicographic
comparison: runs of consecutive decimal digits are compared by their
numeric value, and non-digit characters are compared by code point.
Result is -1, 0 or 1.  The fuel argument makes the recursion structural;
every step strictly shrinks both lists, so fuel equal to the total length
is never exhausted. -/
def natCmpFuel : Nat → List Nat → List Nat → Int
  | _, [], [] => 0
  | _, [], _ :: _ => -1
  | _, _ :: _, [] => 1
  | 0, _ :: _, _ :: _ => 0
  | fuel + 1, x :: xs, y :: ys =>
    if isDigit x && isDigit y then
      let ra := (x :: xs).takeWhile isDigit
      let rb := (y :: ys).takeWhile isDigit
      if digitRunVal ra < digitRunVal rb then -1
      else if digitRunVal rb < digitRunVal ra then 1
      else natCmpFuel fuel ((x :: xs).dropWhile isDigit) ((y :: ys).dropWhile isDigit)
    else
      if x < y then -1
      else if y < x then 1
      else natCmpFuel fuel xs ys

/-- Modelled from the spec: entry point of the natural-order comparator. -/
def strnatcmp (a b : List Nat) : Int := natCmpFuel (a.length + b.length) a b

/-- One list element (`list_ele_t`).  `value` is the owned string buffer;
`id` models the node's identity (its allocation address), which lets the
embedding distinguish distinct nodes that hold equal strings.  The cached
`len` field is `value.length` and the cached `hash` field is
`hash value` (see below), both deterministic in `value`, which is never
mutated after insertion; the embedding recomputes them instead of storing
them. -/
structure Node where
  value : List Nat
  id : Nat
  deriving DecidableEq, Repr

/-- The `hash` function of src/queue.c: `h = h * 10000007 + byte` over the
bytes of the value, in a 32-bit integer, hence reduced mod 2^32. -/
def hash (v : List Nat) : Nat :=
  v.foldl (fun h c => (h * 10000007 + c) % 4294967296) 0

/-- The queue handle (`queue_t`): the chain of nodes reachable from `head`
(in `next` order), the stored `tail` pointer, and the `size` field, a C
`int` — every write to it below goes through `wrap32`. -/
structure Queue where
  chain : List Node
  tail : Option Node
  size : Int
  deriving DecidableEq, Repr

/-- `q_new`: fresh empty queue (the successful-allocation outcome). -/
def q_new : Queue := { chain := [], tail := none, size := 0 }

/-- Two's-complement wraparound of a 32-bit signed integer: the value the
`size` field holds after the C increments and decrements (`q->size++`,
`q->size--`), which wrap at INT_MAX on every mainstream target. -/
def wrap32 (x : Int) : Int := (x + 2147483648) % 4294967296 - 2147483648

/-- `q_insert_head` of src/queue.c (src/unnamed/part_000 is identical in
effect).  `okNode` and `okBuf` are the outcomes of the two `malloc` calls.
The returned `Nat` counts heap blocks allocated by the call that on return
are neither freed nor owned by the queue: on the buffer-allocation failure
path the C code executes `free(newh)`, so no allocation survives. -/
def q_insert_head (q : Option Queue) (s : List Nat) (okNode okBuf : Bool) :
    Bool × Option Queue × Nat :=
  match q with
  | none => (false, none, 0)
  | some q =>
    if !okNode then
      (false, some q, 0)
    else if !okBuf then
      (false, some q, 0)
    else
      let newh : Node := { value := s, id := 0 }
      (true,
       some { chain := newh :: q.chain,
              tail := if q.size = 0 then some newh else q.tail,
              size := wrap32 (q.size + 1) },
       0)

/-- `q_insert_tail` of src/queue.c (src/unnamed/part_000 identical in
effect).  When `size = 0` the C code overwrites both `head` and `tail`
with the new node; otherwise it appends through the `tail` pointer, which
reaches the last chain node in every API-reachable state with nonzero
size. -/
def q_insert_tail (q : Option Queue) (s : List Nat) (okNode okBuf : Bool) :
    Bool × Option Queue × Nat :=
  match q with
  | none => (false, none, 0)
  | some q =>
    if !okNode then
      (false, some q, 0)
    else if !okBuf then
      (false, some q, 0)
    else
      let newt : Node := { value := s, id := 0 }
      (true,
       some { chain := if q.size = 0 then [newt] else q.chain ++ [newt],
              tail := some newt,
              size := wrap32 (q.size + 1) },
       0)

/-- `q_remove_head` (identical in both files).  `sp` is the caller's output
buffer (`none` models a NULL pointer); the third result is the buffer after
the call.  On success with a buffer present, `strncpy` plus the forced
terminator leave the first `bufsize - 1` bytes of the value in the buffer.
The `tail` field is not written by the C code, even when the removed node
was the last one. -/
def q_remove_head (q : Option Queue) (sp : Option (List Nat)) (bufsize : Nat) :
    Bool × Option Queue × Option (List Nat) :=
  match q with
  | none => (false, none, sp)
  | some q =>
    match q.chain with
    | [] => (false, some q, sp)
    | h :: rest =>
      let sp2 := match sp with
        | none => none
        | some _ => some (h.value.take (bufsize - 1))
      (true, some { chain := rest, tail := q.tail, size := wrap32 (q.size - 1) }, sp2)

/-- `q_size` (both files agree up to formatting). -/
def q_size (q : Option Queue) : Int :=
  match q with
  | none => 0
  | some q => q.size

/-- `q_reverse` (both files; queue.c walks from `head` with a NULL `prev`,
part_000 starts at `head->next` and patches `head->next` afterwards — the
relinking reverses the chain either way).  After the loop the chain
reachable from the swapped-in head (the old `tail`, which is the last chain
node whenever `size ≥ 2` in an API-reachable state) is the reverse of the
old chain, and `tail` receives the old head node. -/
def q_reverse (q : Option Queue) : Option Queue :=
  match q with
  | none => none
  | some q =>
    if q.size ≤ 1 then some q
    else some { chain := q.chain.reverse, tail := q.chain.head?, size := q.size }

/-- The split loop of `merge_sort` (both files): advance `mid` nodes from
the head and cut the chain after the (`mid`-1)-th hop, returning the two
pieces.  Every call the C code makes has `1 ≤ mid < length`, so the
truncating clauses are never reached. -/
def cutChain : Nat → List Node → List Node × List Node
  | 0, l => ([], l)
  | _ + 1, [] => ([], [])
  | n + 1, x :: xs =>
    let r := cutChain n xs
    (x :: r.1, r.2)

end Lab0

namespace Lab0.QueueC

/-- `merge` of src/queue.c.  Take the front of `a` when `b` is exhausted, or
when `a` is non-exhausted and the two fronts have distinct hashes and
`strnatcmp` does not put `a`'s front strictly after `b`'s; otherwise take
the front of `b`.  In particular when the two hashes are equal the
comparator is not consulted and `b`'s front is taken.  Fuel equal to the
total length is never exhausted. -/
def mergeFuel : Nat → List Node → List Node → List Node
  | _, [], b => b
  | _, a@(_ :: _), [] => a
  | 0, a, b => a ++ b
  | fuel + 1, x :: xs, y :: ys =>
    if hash x.value != hash y.value && strnatcmp x.value y.value != 1 then
      x :: mergeFuel fuel xs (y :: ys)
    else
      y :: mergeFuel fuel (x :: xs) ys

/-- `merge` of src/queue.c at adequate fuel. -/
def merge (a b : List Node) : List Node := mergeFuel (a.length + b.length) a b

/-- `merge_sort` of src/queue.c: `mid = size >> 1`, split off the first
`mid` nodes, recurse on both halves, merge.  `size == 1` returns the chain
unchanged.  The C code is never called with `size = 0` (q_sort requires
`size ≥ 2` and both recursive sizes stay ≥ 1); recursion depth is at most
`size`, so fuel `size` is never exhausted. -/
def merge_sortFuel : Nat → Nat → List Node → List Node
  | _, 0, l => l
  | _, 1, l => l
  | 0, _ + 2, l => l
  | fuel + 1, n + 2, l =>
    let mid := (n + 2) / 2
    let halves := cutChain mid l
    merge (merge_sortFuel fuel mid halves.1) (merge_sortFuel fuel (n + 2 - mid) halves.2)

/-- `merge_sort` of src/queue.c at adequate fuel. -/
def merge_sort (size : Nat) (l : List Node) : List Node := merge_sortFuel size size l

/-- `q_sort` of src/queue.c: no effect when absent or `size ≤ 1`; otherwise
sort the chain and repair `tail` by walking to the last node of the new
chain (when the walk visits no node, `tail` is left as it was). -/
def q_sort (q : Option Queue) : Option Queue :=
  match q with
  | none => none
  | some q =>
    if q.size ≤ 1 then some q
    else
      let c := merge_sort q.size.toNat q.chain
      some { chain := c,
             tail := match c.getLast? with
                     | some t => some t
                     | none => q.tail,
             size := q.size }

end Lab0.QueueC

namespace Lab0.Part000

/-- `merge` of src/unnamed/part_000: no fingerprints — take the front of
`a` when `b` is exhausted, or when `a` is non-exhausted and `strnatcmp`
does not put `a`'s front strictly after `b`'s (so ties take `a`); otherwise
take the front of `b`.  The C code picks the first node before its loop and
then appends; the selection made at every step is the same.  It is never
called with both chains empty (both sizes are ≥ 1). -/
def mergeFuel : Nat → List Node → List Node → List Node
  | _, [], b => b
  | _, a@(_ :: _), [] => a
  | 0, a, b => a ++ b
  | fuel + 1, x :: xs, y :: ys =>
    if strnatcmp x.value y.value != 1 then
      x :: mergeFuel fuel xs (y :: ys)
    else
      y :: mergeFuel fuel (x :: xs) ys

/-- `merge` of src/unnamed/part_000 at adequate fuel. -/
def merge (a b : List Node) : List Node := mergeFuel (a.length + b.length) a b

/-- `merge_sort` of src/unnamed/part_000 (same structure as queue.c's, but
using the comparison-only merge). -/
def merge_sortFuel : Nat → Nat → List Node → List Node
  | _, 0, l => l
  | _, 1, l => l
  | 0, _ + 2, l => l
  | fuel + 1, n + 2, l =>
    let mid := (n + 2) / 2
    let halves := cutChain mid l
    merge (merge_sortFuel fuel mid halves.1) (merge_sortFuel fuel (n + 2 - mid) halves.2)

/-- `merge_sort` of src/unnamed/part_000 at adequate fuel. -/
def merge_sort (size : Nat) (l : List Node) : List Node := merge_sortFuel size size l

/-- `q_sort` of src/unnamed/part_000. -/
def q_sort (q : Option Queue) : Option Queue :=
  match q with
  | none => none
  | some q =>
    if q.size ≤ 1 then some q
    else
      let c := merge_sort q.size.toNat q.chain
      some { chain := c,
             tail := match c.getLast? with
                     | some t => some t
                     | none => q.tail,
             size := q.size }

end Lab0.Part000

namespace Lab0

/-- One caller-visible operation on a queue, for reasoning about operation
sequences: the insert operations carry the string and the outcomes of the
two allocations, the remove operation carries the output buffer and its
capacity. -/
inductive Op where
  | insH : List Nat → Bool → Bool → Op
  | insT : List Nat → Bool → Bool → Op
  | rem : Option (List Nat) → Nat → Op

/-- Whether an operation is one of the two insertions. -/
def isInsert : Op → Bool
  | Op.insH _ _ _ => true
  | Op.insT _ _ _ => true
  | Op.rem _ _ => false

/-- Apply one operation to a live queue, returning the queue afterwards and
the operation's success flag.  (The operations never return `none` for a
live queue; the fallback keeps the function total.) -/
def applyOp (q : Queue) : Op → Queue × Bool
  | Op.insH s okNode okBuf =>
    match q_insert_head (some q) s okNode okBuf with
    | (ok, some q2, _) => (q2, ok)
    | (ok, none, _) => (q, ok)
  | Op.insT s okNode okBuf =>
    match q_insert_tail (some q) s okNode okBuf with
    | (ok, some q2, _) => (q2, ok)
    | (ok, none, _) => (q, ok)
  | Op.rem sp bufsize =>
    match q_remove_head (some q) sp bufsize with
    | (ok, some q2, _) => (q2, ok)
    | (ok, none, _) => (q, ok)

/-- Run a sequence of operations; also return the number of successful
insertions and the number of successful removals. -/
def runOps : Queue → List Op → Queue × Nat × Nat
  | q, [] => (q, 0, 0)
  | q, op :: ops =>
    let r := applyOp q op
    let rest := runOps r.1 ops
    if isInsert op then
      (rest.1, rest.2.1 + (if r.2 then 1 else 0), rest.2.2)
    else
      (rest.1, rest.2.1, rest.2.2 + (if r.2 then 1 else 0))

/-- The chain of an optional queue (empty for an absent queue). -/
def chainOf (q : Option Queue) : List Node :=
  match q with
  | none => []
  | some q => q.chain

/-- Test vector: first component of a fingerprint collision.  The bytes
spell the eight characters of a lowercase string. -/
def collA : Node := { value := [109, 109, 109, 109, 109, 109, 109, 109], id := 0 }

/-- Test vector: second component of a fingerprint collision: a different
string with the same `hash` value modulo 2^32 that compares strictly after
`collA` in natural order. -/
def collB : Node := { value := [121, 104, 113, 99, 97, 100, 119, 99], id := 1 }

end Lab0

namespace Lab0

open List

theorem cutChain_append : ∀ (n : Nat) (l : List Node),
    (cutChain n l).1 ++ (cutChain n l).2 = l := by
  intro n
  induction n with
  | zero => intro l; simp [cutChain]
  | succ m ih =>
    intro l
    cases l with
    | nil => simp [cutChain]
    | cons x xs => simp [cutChain, ih xs]

theorem cutChain_eq : ∀ (n : Nat) (l : List Node), n ≤ l.length →
    cutChain n l = (l.take n, l.drop n) := by
  intro n
  induction n with
  | zero => intro l _; simp [cutChain]
  | succ m ih =>
    intro l h
    cases l with
    | nil => simp at h
    | cons x xs =>
      have hm : m ≤ xs.length := by simpa using h
      simp [cutChain, ih xs hm]

theorem QueueC.mergeFuel_perm_fp : ∀ (fuel : Nat) (a b : List Node),
    (QueueC.mergeFuel fuel a b).Perm (a ++ b) := by
  intro fuel
  induction fuel with
  | zero =>
    intro a b
    cases a with
    | nil => simp [QueueC.mergeFuel]
    | cons x xs =>
      cases b with
      | nil => simp [QueueC.mergeFuel]
      | cons y ys => simp [QueueC.mergeFuel]
  | succ f ih =>
    intro a b
    cases a with
    | nil => simp [QueueC.mergeFuel]
    | cons x xs =>
      cases b with
      | nil => simp [QueueC.mergeFuel]
      | cons y ys =>
        simp only [QueueC.mergeFuel]
        split
        · exact (ih xs (y :: ys)).cons x
        · exact ((ih (x :: xs) ys).cons y).trans List.perm_middle.symm

theorem QueueC.merge_perm_fp (a b : List Node) : (QueueC.merge a b).Perm (a ++ b) :=
  QueueC.mergeFuel_perm_fp _ a b

theorem Part000.mergeFuel_perm_plain : ∀ (fuel : Nat) (a b : List Node),
    (Part000.mergeFuel fuel a b).Perm (a ++ b) := by
  intro fuel
  induction fuel with
  | zero =>
    intro a b
    cases a with
    | nil => simp [Part000.mergeFuel]
    | cons x xs =>
      cases b with
      | nil => simp [Part000.mergeFuel]
      | cons y ys => simp [Part000.mergeFuel]
  | succ f ih =>
    intro a b
    cases a with
    | nil => simp [Part000.mergeFuel]
    | cons x xs =>
      cases b with
      | nil => simp [Part000.mergeFuel]
      | cons y ys =>
        simp only [Part000.mergeFuel]
        split
        · exact (ih xs (y :: ys)).cons x
        · exact ((ih (x :: xs) ys).cons y).trans List.perm_middle.symm

theorem Part000.merge_perm_plain (a b : List Node) : (Part000.merge a b).Perm (a ++ b) :=
  Part000.mergeFuel_perm_plain _ a b

theorem QueueC.merge_sortFuel_perm_fp : ∀ (fuel size : Nat) (l : List Node),
    (QueueC.merge_sortFuel fuel size l).Perm l := by
  intro fuel
  induction fuel with
  | zero =>
    intro size l
    match size with
    | 0 => simp [QueueC.merge_sortFuel]
    | 1 => simp [QueueC.merge_sortFuel]
    | n + 2 => simp [QueueC.merge_sortFuel]
  | succ f ih =>
    intro size l
    match size with
    | 0 => simp [QueueC.merge_sortFuel]
    | 1 => simp [QueueC.merge_sortFuel]
    | n + 2 =>
      have h1 := ih ((n + 2) / 2) (cutChain ((n + 2) / 2) l).1
      have h2 := ih (n + 2 - (n + 2) / 2) (cutChain ((n + 2) / 2) l).2
      have hm := QueueC.merge_perm_fp
        (QueueC.merge_sortFuel f ((n + 2) / 2) (cutChain ((n + 2) / 2) l).1)
        (QueueC.merge_sortFuel f (n + 2 - (n + 2) / 2) (cutChain ((n + 2) / 2) l).2)
      have : (QueueC.merge_sortFuel (f + 1) (n + 2) l).Perm
          ((cutChain ((n + 2) / 2) l).1 ++ (cutChain ((n + 2) / 2) l).2) := by
        simpa [QueueC.merge_sortFuel] using hm.trans (h1.append h2)
      simpa [cutChain_append] using this

theorem QueueC.merge_sort_perm_fp (size : Nat) (l : List Node) :
    (QueueC.merge_sort size l).Perm l :=
  QueueC.merge_sortFuel_perm_fp size size l

theorem Part000.merge_sortFuel_perm_plain : ∀ (fuel size : Nat) (l : List Node),
    (Part000.merge_sortFuel fuel size l).Perm l := by
  intro fuel
  induction fuel with
  | zero =>
    intro size l
    match size with
    | 0 => simp [Part000.merge_sortFuel]
    | 1 => simp [Part000.merge_sortFuel]
    | n + 2 => simp [Part000.merge_sortFuel]
  | succ f ih =>
    intro size l
    match size with
    | 0 => simp [Part000.merge_sortFuel]
    | 1 => simp [Part000.merge_sortFuel]
    | n + 2 =>
      have h1 := ih ((n + 2) / 2) (cutChain ((n + 2) / 2) l).1
      have h2 := ih (n + 2 - (n + 2) / 2) (cutChain ((n + 2) / 2) l).2
      have hm := Part000.merge_perm_plain
        (Part000.merge_sortFuel f ((n + 2) / 2) (cutChain ((n + 2) / 2) l).1)
        (Part000.merge_sortFuel f (n + 2 - (n + 2) / 2) (cutChain ((n + 2) / 2) l).2)
      have : (Part000.merge_sortFuel (f + 1) (n + 2) l).Perm
          ((cutChain ((n + 2) / 2) l).1 ++ (cutChain ((n + 2) / 2) l).2) := by
        simpa [Part000.merge_sortFuel] using hm.trans (h1.append h2)
      simpa [cutChain_append] using this

theorem Part000.merge_sort_perm_plain (size : Nat) (l : List Node) :
    (Part000.merge_sort size l).Perm l :=
  Part000.merge_sortFuel_perm_plain size size l

end Lab0

namespace Lab0

theorem wrap32_eq_self (x : Int) (h1 : -2147483648 ≤ x) (h2 : x ≤ 2147483647) :
    wrap32 x = x := by
  simp only [wrap32]
  omega

theorem wrap32_idem (x : Int) : wrap32 (wrap32 x) = wrap32 x := by
  simp only [wrap32]
  omega

theorem wrap32_add_left (x y : Int) : wrap32 (wrap32 x + y) = wrap32 (x + y) := by
  simp only [wrap32]
  omega

theorem applyOp_size (q : Queue) (op : Op) (h : q.size = (q.chain.length : Int))
    (hr : q.chain.length ≤ 2147483647)
    (hb : isInsert op = true → (applyOp q op).2 = true → q.chain.length ≤ 2147483646) :
    (applyOp q op).1.size = ((applyOp q op).1.chain.length : Int) ∧
    (applyOp q op).1.size =
      q.size + (if isInsert op then (if (applyOp q op).2 then 1 else 0)
                else -(if (applyOp q op).2 then 1 else 0)) := by
  cases op with
  | insH s okNode okBuf =>
    cases okNode with
    | false => simp [applyOp, q_insert_head, isInsert, h]
    | true =>
      cases okBuf with
      | false => simp [applyOp, q_insert_head, isInsert, h]
      | true =>
        have hok : (applyOp q (Op.insH s true true)).2 = true := by
          simp [applyOp, q_insert_head]
        have hlen : q.chain.length ≤ 2147483646 := hb rfl hok
        have hw : wrap32 ((q.chain.length : Int) + 1) = (q.chain.length : Int) + 1 := by
          refine wrap32_eq_self _ (by omega) (by omega)
        refine ⟨?_, ?_⟩ <;> simp [applyOp, q_insert_head, isInsert, h, hw]
  | insT s okNode okBuf =>
    cases okNode with
    | false => simp [applyOp, q_insert_tail, isInsert, h]
    | true =>
      cases okBuf with
      | false => simp [applyOp, q_insert_tail, isInsert, h]
      | true =>
        have hok : (applyOp q (Op.insT s true true)).2 = true := by
          simp [applyOp, q_insert_tail]
        have hlen : q.chain.length ≤ 2147483646 := hb rfl hok
        rcases eq_or_ne q.size 0 with h0 | h0
        · have hw1 : wrap32 1 = 1 := by decide
          refine ⟨?_, ?_⟩ <;> simp [applyOp, q_insert_tail, isInsert, h0, hw1]
        · have hne : q.chain ≠ [] := by
            intro hc
            rw [hc] at h
            simp at h
            exact h0 h
          have hw : wrap32 ((q.chain.length : Int) + 1) = (q.chain.length : Int) + 1 := by
            refine wrap32_eq_self _ (by omega) (by omega)
          refine ⟨?_, ?_⟩ <;> simp [applyOp, q_insert_tail, isInsert, h0, hne, h, hw]
  | rem sp bufsize =>
    cases hc : q.chain with
    | nil =>
      rw [hc] at h
      simp [applyOp, q_remove_head, hc, isInsert, h]
    | cons x xs =>
      rw [hc] at h hr
      simp only [List.length_cons] at h hr
      have hw : wrap32 ((xs.length : Int)) = (xs.length : Int) := by
        refine wrap32_eq_self _ (by omega) (by omega)
      refine ⟨?_, ?_⟩ <;> simp [applyOp, q_remove_head, hc, isInsert, h, hw]

theorem runOps_size : ∀ (ops : List Op) (q : Queue),
    q.size = (q.chain.length : Int) →
    q.chain.length + (runOps q ops).2.1 ≤ 2147483647 →
    (runOps q ops).1.size = ((runOps q ops).1.chain.length : Int) ∧
    (runOps q ops).1.size =
      q.size + ((runOps q ops).2.1 : Int) - ((runOps q ops).2.2 : Int) := by
  intro ops
  induction ops with
  | nil => intro q h _; exact ⟨h, by simp [runOps]⟩
  | cons op ops ih =>
    intro q h hb
    cases hins : isInsert op with
    | true =>
      cases hok : (applyOp q op).2 with
      | true =>
        have hcount : (runOps q (op :: ops)).2.1
            = (runOps (applyOp q op).1 ops).2.1 + 1 := by
          simp [runOps, hins, hok]
        rw [hcount] at hb
        rcases applyOp_size q op h (by omega) (fun _ _ => by omega) with ⟨hinv, hdelta⟩
        rw [hins, hok] at hdelta
        simp at hdelta
        have hlen2 : (applyOp q op).1.chain.length = q.chain.length + 1 := by
          have h2 := hinv
          rw [hdelta, h] at h2
          omega
        rcases ih (applyOp q op).1 hinv (by rw [hlen2]; omega) with ⟨ih1, ih2⟩
        refine ⟨by simpa [runOps, hins, hok] using ih1, ?_⟩
        have hfst : (runOps q (op :: ops)).1 = (runOps (applyOp q op).1 ops).1 := by
          simp [runOps, hins, hok]
        have hsnd : (runOps q (op :: ops)).2.2 = (runOps (applyOp q op).1 ops).2.2 := by
          simp [runOps, hins, hok]
        rw [hfst, hcount, hsnd]
        omega
      | false =>
        have hcount : (runOps q (op :: ops)).2.1
            = (runOps (applyOp q op).1 ops).2.1 := by
          simp [runOps, hins, hok]
        rw [hcount] at hb
        rcases applyOp_size q op h (by omega) (fun _ hk => by rw [hok] at hk; cases hk)
          with ⟨hinv, hdelta⟩
        rw [hins, hok] at hdelta
        simp at hdelta
        have hlen2 : (applyOp q op).1.chain.length = q.chain.length := by
          have h2 := hinv
          rw [hdelta, h] at h2
          omega
        rcases ih (applyOp q op).1 hinv (by rw [hlen2]; omega) with ⟨ih1, ih2⟩
        refine ⟨by simpa [runOps, hins, hok] using ih1, ?_⟩
        have hfst : (runOps q (op :: ops)).1 = (runOps (applyOp q op).1 ops).1 := by
          simp [runOps, hins, hok]
        have hsnd : (runOps q (op :: ops)).2.2 = (runOps (applyOp q op).1 ops).2.2 := by
          simp [runOps, hins, hok]
        rw [hfst, hcount, hsnd]
        omega
    | false =>
      have hcount : (runOps q (op :: ops)).2.1
          = (runOps (applyOp q op).1 ops).2.1 := by
        simp [runOps, hins]
      rw [hcount] at hb
      rcases applyOp_size q op h (by omega) (fun hk _ => by rw [hins] at hk; cases hk)
        with ⟨hinv, hdelta⟩
      rw [hins] at hdelta
      cases hok : (applyOp q op).2 with
      | true =>
        rw [hok] at hdelta
        simp at hdelta
        have hlen2 : (applyOp q op).1.chain.length + 1 = q.chain.length := by
          have h2 := hinv
          rw [hdelta, h] at h2
          omega
        rcases ih (applyOp q op).1 hinv (by omega) with ⟨ih1, ih2⟩
        refine ⟨by simpa [runOps, hins, hok] using ih1, ?_⟩
        have hfst : (runOps q (op :: ops)).1 = (runOps (applyOp q op).1 ops).1 := by
          simp [runOps, hins]
        have hsnd : (runOps q (op :: ops)).2.2
            = (runOps (applyOp q op).1 ops).2.2 + 1 := by
          simp [runOps, hins, hok]
        rw [hfst, hcount, hsnd]
        omega
      | false =>
        rw [hok] at hdelta
        simp at hdelta
        have hlen2 : (applyOp q op).1.chain.length = q.chain.length := by
          have h2 := hinv
          rw [hdelta, h] at h2
          omega
        rcases ih (applyOp q op).1 hinv (by rw [hlen2]; omega) with ⟨ih1, ih2⟩
        refine ⟨by simpa [runOps, hins, hok] using ih1, ?_⟩
        have hfst : (runOps q (op :: ops)).1 = (runOps (applyOp q op).1 ops).1 := by
          simp [runOps, hins]
        have hsnd : (runOps q (op :: ops)).2.2
            = (runOps (applyOp q op).1 ops).2.2 := by
          simp [runOps, hins, hok]
        rw [hfst, hcount, hsnd]
        omega

theorem runOps_replicate_insH : ∀ (n : Nat) (q : Queue), q.size = wrap32 q.size →
    (runOps q (List.replicate n (Op.insH [] true true))).2.1 = n ∧
    (runOps q (List.replicate n (Op.insH [] true true))).2.2 = 0 ∧
    (runOps q (List.replicate n (Op.insH [] true true))).1.size
      = wrap32 (q.size + (n : Int)) := by
  intro n
  induction n with
  | zero =>
    intro q hq
    refine ⟨rfl, rfl, ?_⟩
    simpa [runOps] using hq
  | succ m ih =>
    intro q hq
    have hq2 : wrap32 (q.size + 1) = wrap32 (wrap32 (q.size + 1)) := (wrap32_idem _).symm
    rcases ih { chain := { value := [], id := 0 } :: q.chain,
                tail := if q.size = 0 then some { value := [], id := 0 } else q.tail,
                size := wrap32 (q.size + 1) } hq2 with ⟨ih1, ih2, ih3⟩
    refine ⟨?_, ?_, ?_⟩
    · simp only [List.replicate_succ, runOps, applyOp, q_insert_head, isInsert]
      simpa using ih1
    · simp only [List.replicate_succ, runOps, applyOp, q_insert_head, isInsert]
      simpa using ih2
    · simp only [List.replicate_succ, runOps, applyOp, q_insert_head, isInsert]
      simp only [Bool.not_true, Bool.false_eq_true, if_false, if_true]
      rw [ih3, wrap32_add_left]
      congr 1
      push_cast
      ring

end Lab0

namespace Lab0

/-- C1: the claim says that in the merge step of q_sort, fronts that compare
equal under the natural-order comparator take the element of chain `a`
first, making the sort stable.  The merge of src/queue.c does the opposite:
two nodes with equal values have equal fingerprints, the fingerprint guard
`a->hash != b->hash` is then false, and `b`'s node is emitted first without
consulting the comparator — so q_sort swaps the relative order of
equal-valued nodes.  (The merge of src/unnamed/part_000 does take `a`'s
node first, as the claim states.)  This theorem evaluates both merges and
queue.c's q_sort on equal-valued nodes distinguished by their identity. -/
theorem merge_tie_takes_b_not_a :
    strnatcmp [97] [97] = 0 ∧
    QueueC.merge [{ value := [97], id := 0 }] [{ value := [97], id := 1 }]
      = [{ value := [97], id := 1 }, { value := [97], id := 0 }] ∧
    Part000.merge [{ value := [97], id := 0 }] [{ value := [97], id := 1 }]
      = [{ value := [97], id := 0 }, { value := [97], id := 1 }] ∧
    QueueC.q_sort (some { chain := [{ value := [97], id := 0 }, { value := [97], id := 1 }],
                          tail := some { value := [97], id := 1 }, size := 2 })
      = some { chain := [{ value := [97], id := 1 }, { value := [97], id := 0 }],
               tail := some { value := [97], id := 0 }, size := 2 } := by
  decide

/-- C2: the claim says the fingerprint fast path never changes the output,
equal fingerprints with unequal values being resolved by the full
comparison.  In src/queue.c they are not: on the collision pair `collA`,
`collB` (equal `hash`, different values, `collA` strictly first in natural
order) the fingerprint merge emits `b`'s node first while the
full-comparison merge of src/unnamed/part_000 emits `a`'s, so the two
merges produce different chains. -/
theorem fingerprint_collision_changes_merge :
    hash collA.value = hash collB.value ∧
    collA.value ≠ collB.value ∧
    strnatcmp collA.value collB.value = -1 ∧
    QueueC.merge [collA] [collB] = [collB, collA] ∧
    Part000.merge [collA] [collB] = [collA, collB] ∧
    QueueC.merge [collA] [collB] ≠ Part000.merge [collA] [collB] := by
  decide

/-- C3: the claim says q_sort always leaves the values in non-decreasing
natural order.  On the fingerprint collision pair `collA < collB` (equal
`hash`), q_sort of src/queue.c turns the already sorted chain
[collA, collB] into [collB, collA], whose adjacent pair compares as 1 —
strictly decreasing.  The comparison-only q_sort of src/unnamed/part_000
leaves the sorted chain unchanged, and on the spec's example
"a10", "a2", "a1" it produces "a1", "a2", "a10" as the claim describes. -/
theorem q_sort_unsorted_on_collision :
    strnatcmp collA.value collB.value = -1 ∧
    QueueC.q_sort (some { chain := [collA, collB], tail := some collB, size := 2 })
      = some { chain := [collB, collA], tail := some collA, size := 2 } ∧
    strnatcmp collB.value collA.value = 1 ∧
    Part000.q_sort (some { chain := [collA, collB], tail := some collB, size := 2 })
      = some { chain := [collA, collB], tail := some collB, size := 2 } ∧
    Part000.q_sort (some { chain := [{ value := [97, 49, 48], id := 0 },
                                     { value := [97, 50], id := 1 },
                                     { value := [97, 49], id := 2 }],
                           tail := some { value := [97, 49], id := 2 }, size := 3 })
      = some { chain := [{ value := [97, 49], id := 2 },
                         { value := [97, 50], id := 1 },
                         { value := [97, 49, 48], id := 0 }],
               tail := some { value := [97, 49, 48], id := 0 }, size := 3 } := by
  decide

/-- C4: the claim says every operation preserves the handle invariant
(head and tail both none iff size = 0) and that q_remove_head resets tail
to none when it empties the queue.  The code never writes `tail` in
q_remove_head: removing the only node of a singleton queue succeeds and
leaves `size = 0`, `head = none`, but `tail` still referencing the freed
node. -/
theorem remove_last_leaves_stale_tail :
    q_remove_head (some { chain := [{ value := [97], id := 0 }],
                          tail := some { value := [97], id := 0 }, size := 1 }) none 8
      = (true, some { chain := [], tail := some { value := [97], id := 0 }, size := 0 }, none) ∧
    ({ chain := [], tail := some { value := [97], id := 0 }, size := 0 } : Queue).size = 0 ∧
    ({ chain := [], tail := some { value := [97], id := 0 }, size := 0 } : Queue).tail ≠ none := by
  decide

/-- C5: when q_insert_head or q_insert_tail fails — absent handle, node
allocation failure, or buffer allocation failure — it returns false, the
queue (head, tail, size and all nodes) is unchanged, and no allocation
survives the call (the node allocation is freed when the buffer allocation
fails). -/
theorem insert_fail_unchanged (q : Option Queue) (s : List Nat) (okNode okBuf : Bool)
    (h : q = none ∨ okNode = false ∨ okBuf = false) :
    q_insert_head q s okNode okBuf = (false, q, 0) ∧
    q_insert_tail q s okNode okBuf = (false, q, 0) := by
  rcases h with h | h | h
  · subst h; exact ⟨rfl, rfl⟩
  · subst h
    cases q with
    | none => exact ⟨rfl, rfl⟩
    | some q => exact ⟨rfl, rfl⟩
  · subst h
    cases q with
    | none => exact ⟨rfl, rfl⟩
    | some q =>
      cases okNode with
      | false => exact ⟨rfl, rfl⟩
      | true => exact ⟨rfl, rfl⟩

/-- Witness for C5 at a concrete failing input (absent handle). -/
theorem insert_fail_unchanged_witness :
    q_insert_head none [97] true true = (false, none, 0) ∧
    q_insert_tail none [97] true true = (false, none, 0) :=
  insert_fail_unchanged none [97] true true (Or.inl rfl)

/-- C6: q_remove_head on an absent or empty queue returns false, leaves the
queue (hence its size) unchanged, and does not write the caller's output
buffer. -/
theorem remove_head_fail_frame (q : Option Queue) (sp : Option (List Nat)) (bufsize : Nat)
    (h : q = none ∨ ∃ q0, q = some q0 ∧ q0.chain = []) :
    q_remove_head q sp bufsize = (false, q, sp) := by
  rcases h with h | ⟨q0, rfl, hc⟩
  · subst h; rfl
  · simp [q_remove_head, hc]

/-- Witness for C6 at a concrete input (the freshly created empty queue,
with a buffer supplied). -/
theorem remove_head_fail_frame_witness :
    q_remove_head (some q_new) (some [107]) 4 = (false, some q_new, some [107]) :=
  remove_head_fail_frame (some q_new) (some [107]) 4 (Or.inr ⟨q_new, rfl, rfl⟩)

/-- C7: for a chain of `size ≥ 1` nodes (size the true node count),
merge_sort's split gives the left half exactly size / 2 nodes and the right
half the remaining size - size / 2, losing no node, and the base case
size = 1 returns the chain unchanged — in both files. -/
theorem merge_sort_split (l : List Node) (size : Nat)
    (hlen : size = l.length) (hpos : 1 ≤ size) :
    (size = 1 → QueueC.merge_sort size l = l ∧ Part000.merge_sort size l = l) ∧
    (cutChain (size / 2) l).1.length = size / 2 ∧
    (cutChain (size / 2) l).2.length = size - size / 2 ∧
    (cutChain (size / 2) l).1 ++ (cutChain (size / 2) l).2 = l := by
  have hle : size / 2 ≤ l.length := hlen ▸ Nat.div_le_self size 2
  rw [cutChain_eq _ _ hle]
  refine ⟨?_, ?_, ?_, ?_⟩
  · intro h1
    subst h1
    exact ⟨rfl, rfl⟩
  · simp [List.length_take]
    omega
  · simp [List.length_drop]
    omega
  · exact List.take_append_drop _ _

/-- Witness for C7 at a concrete chain of one node (exercising the base
case) — the hypotheses hold by computation. -/
theorem merge_sort_split_witness :
    ((1 = 1 → QueueC.merge_sort 1 [({ value := [97], id := 0 } : Node)]
        = [({ value := [97], id := 0 } : Node)] ∧
      Part000.merge_sort 1 [({ value := [97], id := 0 } : Node)]
        = [({ value := [97], id := 0 } : Node)]) ∧
     (cutChain (1 / 2) [({ value := [97], id := 0 } : Node)]).1.length = 1 / 2 ∧
     (cutChain (1 / 2) [({ value := [97], id := 0 } : Node)]).2.length = 1 - 1 / 2 ∧
     (cutChain (1 / 2) [({ value := [97], id := 0 } : Node)]).1
       ++ (cutChain (1 / 2) [({ value := [97], id := 0 } : Node)]).2
       = [({ value := [97], id := 0 } : Node)]) :=
  merge_sort_split [({ value := [97], id := 0 } : Node)] 1 (by decide) (by decide)

/-- C8: q_reverse is an involution on the head-to-tail element sequence:
for every queue — absent, empty, single-element or longer — reversing twice
restores the original chain. -/
theorem reverse_involution (q : Option Queue) :
    Option.map Queue.chain (q_reverse (q_reverse q)) = Option.map Queue.chain q := by
  match q with
  | none => rfl
  | some q =>
    by_cases h : q.size ≤ 1
    · simp [q_reverse, h]
    · simp [q_reverse, h]

/-- C9 counterexample: the claim as stated quantifies over every finite
operation sequence, but the size field is a 32-bit C int.  After exactly
2^31 successful head insertions on a fresh queue the counter has wrapped to
INT_MIN: the successful-insertion count is 2^31 and no removal succeeded,
yet size is -2147483648 — neither equal to the net count nor nonnegative. -/
theorem size_net_count_overflows_int :
    ¬ (((runOps q_new (List.replicate 2147483648 (Op.insH [] true true))).1.size
        = ((runOps q_new (List.replicate 2147483648 (Op.insH [] true true))).2.1 : Int)
          - ((runOps q_new (List.replicate 2147483648 (Op.insH [] true true))).2.2 : Int)) ∧
       0 ≤ (runOps q_new (List.replicate 2147483648 (Op.insH [] true true))).1.size) := by
  intro hcl
  rcases runOps_replicate_insH 2147483648 q_new (by decide) with ⟨hi, hr, hs⟩
  have hs2 : (runOps q_new (List.replicate 2147483648 (Op.insH [] true true))).1.size
      = -2147483648 := by
    rw [hs]
    decide
  rcases hcl with ⟨hEq, hNonneg⟩
  rw [hs2] at hNonneg
  exact absurd hNonneg (by decide)

/-- C9 (amended): for every sequence of insert_head / insert_tail /
remove_head operations run on a newly created queue in which fewer than
2^31 insertions succeed — so the 32-bit size counter never overflows — the
final size field equals the number of successful insertions minus the
number of successful removals, and it is never negative. -/
theorem size_eq_net_successful_ops (ops : List Op)
    (hb : (runOps q_new ops).2.1 < 2147483648) :
    ((runOps q_new ops).1.size
      = ((runOps q_new ops).2.1 : Int) - ((runOps q_new ops).2.2 : Int)) ∧
    0 ≤ (runOps q_new ops).1.size := by
  have h0 : q_new.chain.length = 0 := rfl
  have h := runOps_size ops q_new rfl (by rw [h0]; omega)
  refine ⟨?_, ?_⟩
  · have h2 := h.2
    have hz : q_new.size = 0 := rfl
    rw [hz] at h2
    omega
  · rw [h.1]
    exact Int.natCast_nonneg _

/-- Witness for C9 at a concrete operation sequence (two successful
inserts, one failed insert, two removals of which the second fails on the
then-empty queue). -/
theorem size_eq_net_successful_ops_witness :
    ((runOps q_new [Op.insH [97] true true, Op.insT [98] true false,
                    Op.rem none 4, Op.insT [99] true true,
                    Op.rem (some []) 4, Op.rem none 4]).2.1 < 2147483648) ∧
    (((runOps q_new [Op.insH [97] true true, Op.insT [98] true false,
                     Op.rem none 4, Op.insT [99] true true,
                     Op.rem (some []) 4, Op.rem none 4]).1.size
       = ((runOps q_new [Op.insH [97] true true, Op.insT [98] true false,
                         Op.rem none 4, Op.insT [99] true true,
                         Op.rem (some []) 4, Op.rem none 4]).2.1 : Int)
         - ((runOps q_new [Op.insH [97] true true, Op.insT [98] true false,
                           Op.rem none 4, Op.insT [99] true true,
                           Op.rem (some []) 4, Op.rem none 4]).2.2 : Int)) ∧
     0 ≤ (runOps q_new [Op.insH [97] true true, Op.insT [98] true false,
                        Op.rem none 4, Op.insT [99] true true,
                        Op.rem (some []) 4, Op.rem none 4]).1.size) :=
  ⟨by decide,
   size_eq_net_successful_ops
     [Op.insH [97] true true, Op.insT [98] true false,
      Op.rem none 4, Op.insT [99] true true,
      Op.rem (some []) 4, Op.rem none 4] (by decide)⟩

/-- C10: q_reverse and both files' q_sort leave the size field unchanged
and permute the existing nodes of the chain (same values, same node
identities — nothing allocated, freed or rewritten; only links move). -/
theorem sort_reverse_frame (q : Queue) :
    q_size (q_reverse (some q)) = q.size ∧
    (chainOf (q_reverse (some q))).Perm q.chain ∧
    q_size (QueueC.q_sort (some q)) = q.size ∧
    (chainOf (QueueC.q_sort (some q))).Perm q.chain ∧
    q_size (Part000.q_sort (some q)) = q.size ∧
    (chainOf (Part000.q_sort (some q))).Perm q.chain := by
  by_cases h : q.size ≤ 1
  · refine ⟨?_, ?_, ?_, ?_, ?_, ?_⟩ <;>
      simp [q_reverse, QueueC.q_sort, Part000.q_sort, q_size, chainOf, h]
  · refine ⟨?_, ?_, ?_, ?_, ?_, ?_⟩ <;>
      simp [q_reverse, QueueC.q_sort, Part000.q_sort, q_size, chainOf, h,
            QueueC.merge_sort_perm_fp, Part000.merge_sort_perm_plain, List.reverse_perm]

end Lab0
